import Mathlib

/-!
Verification development for the streaming aggregation core of
`Jinteia-Loot-Analyzer-FREE.py`: the log-line parser, the sliding-window
aggregator of `LiveMonitorWorker`, and the crafting-cost reconciliation
state of `LootMonitorApp`.

Conventions of the embedding:
* Python `int` is `Int` (or `Nat` where the source can only produce
  non-negative values, e.g. `int(qty_str)` of a digit string).
* Python `float` arithmetic (rates, elapsed hours) is modelled as exact
  rational arithmetic over `ℚ`; the built-in `round` (half-to-even) is
  `pyRound` below.
* Python dicts are association lists in insertion order; `dict.get` is a
  first-match lookup; `defaultdict(int)` is a total function `String → Int`
  that is `0` outside its support.
* A raised Python exception is `Except.error`; a normal result is
  `Except.ok`.
-/

deriving instance DecidableEq for Except

/-- A naive calendar date-time as produced by `datetime.strptime`
(`parse_datetime_from_log`). Only validity and the captured fields matter
to the parser claims, so the fields are kept as plain numbers. -/
structure DateTime where
  year : Nat
  month : Nat
  day : Nat
  hour : Nat
  minute : Nat
  second : Nat
deriving DecidableEq

/-- The dataclass `LootEvent` as returned by `parse_log_line`. -/
structure LootEvent where
  ts : DateTime
  quantity : Nat
  item : String
deriving DecidableEq

/-- The captured groups of one successful match of `LOG_LINE_RE`
(`r"\[(\d{2}/\d{2}/\d{2})\] \[(\d{2}:\d{2}:\d{2})\]: You receive (\d+) (.+?)\."`):
the six timestamp fields, the quantity digit string, and the lazily
matched item-name characters. -/
structure MatchG where
  day : Nat
  month : Nat
  year2 : Nat
  hour : Nat
  minute : Nat
  second : Nat
  qtyDigits : List Char
  item : List Char
deriving DecidableEq

/-- The character class `\d` of the regex (a decimal digit). -/
def isDig (c : Char) : Bool := c.isDigit

def digitVal (c : Char) : Nat := c.toNat - 48

/-- Match a literal character sequence, returning the remaining input. -/
def expectLit : List Char → List Char → Option (List Char)
  | [], cs => some cs
  | _ :: _, [] => none
  | p :: ps, c :: cs => if c = p then expectLit ps cs else none

/-- Match `\d{2}` and return its numeric value. -/
def take2 : List Char → Option (Nat × List Char)
  | c1 :: c2 :: cs =>
    if isDig c1 && isDig c2 then some (digitVal c1 * 10 + digitVal c2, cs) else none
  | _ => none

/-- The greedy run of `\d+`: the maximal leading digit block and the rest.
(Backtracking into a shorter run can never help here because the regex
continues with a literal space, which is not a digit.) -/
def digitRun : List Char → List Char × List Char
  | [] => ([], [])
  | c :: cs =>
    if isDig c then (c :: (digitRun cs).1, (digitRun cs).2)
    else ([], c :: cs)

/-- Continuation of the lazy `(.+?)\.` scan after its first character:
stop at the first `'.'`; `.` does not match a newline, so a newline before
that period fails the match. -/
def grabItemAux : List Char → Option (List Char × List Char)
  | [] => none
  | c :: cs =>
    if c = '.' then some ([], cs)
    else if c = '\n' then none
    else
      match grabItemAux cs with
      | some (it, rest) => some (c :: it, rest)
      | none => none

/-- The lazy `(.+?)\.` of the regex: at least one non-newline character,
up to (and excluding) the first subsequent `'.'`. -/
def grabItem : List Char → Option (List Char × List Char)
  | [] => none
  | c :: cs =>
    if c = '\n' then none
    else
      match grabItemAux cs with
      | some (it, rest) => some (c :: it, rest)
      | none => none

/-- The fixed-shape head of `LOG_LINE_RE`:
`\[\d{2}/\d{2}/\d{2}\] \[\d{2}:\d{2}:\d{2}\]: You receive `.
Returns day, month, two-digit year, hour, minute, second and the rest of
the input. -/
def matchHeader (cs0 : List Char) : Option (Nat × Nat × Nat × Nat × Nat × Nat × List Char) :=
  (expectLit ['['] cs0).bind fun cs =>
  (take2 cs).bind fun (d, cs) =>
  (expectLit ['/'] cs).bind fun cs =>
  (take2 cs).bind fun (mo, cs) =>
  (expectLit ['/'] cs).bind fun cs =>
  (take2 cs).bind fun (y2, cs) =>
  (expectLit (']' :: ' ' :: ['[']) cs).bind fun cs =>
  (take2 cs).bind fun (h, cs) =>
  (expectLit [':'] cs).bind fun cs =>
  (take2 cs).bind fun (mi, cs) =>
  (expectLit [':'] cs).bind fun cs =>
  (take2 cs).bind fun (s, cs) =>
  (expectLit (']' :: ':' :: ' ' :: ("You receive ").data) cs).map fun cs =>
  (d, mo, y2, h, mi, s, cs)

/-- Attempt `LOG_LINE_RE` at the start of the input (one anchor position
of `re.search`). -/
def matchAt (cs : List Char) : Option MatchG :=
  (matchHeader cs).bind fun (d, mo, y2, h, mi, s, cs) =>
  match digitRun cs with
  | ([], _) => none
  | (q :: qs, cs) =>
    (expectLit [' '] cs).bind fun cs =>
    (grabItem cs).map fun (it, _) =>
    ⟨d, mo, y2, h, mi, s, q :: qs, it⟩

/-- Model of `re.search` for `LOG_LINE_RE`: try every start position left to right
and return the leftmost match. -/
def searchMatch : List Char → Option MatchG
  | [] => none
  | c :: cs =>
    match matchAt (c :: cs) with
    | some g => some g
    | none => searchMatch cs

def isLeap (y : Nat) : Bool := y % 4 == 0 && (y % 100 != 0 || y % 400 == 0)

def daysInMonth (y m : Nat) : Nat :=
  if m == 2 then (if isLeap y then 29 else 28)
  else if m == 4 || m == 6 || m == 9 || m == 11 then 30
  else 31

/-- The `%y` rule of `strptime`: 69–99 map to 1969–1999, 00–68 to 2000–2068. -/
def yearFrom2 (y2 : Nat) : Nat := if 69 ≤ y2 then 1900 + y2 else 2000 + y2

/-- Model of `parse_datetime_from_log`, i.e.
`datetime.strptime(f"{date} {time}", "%d/%m/%y %H:%M:%S")` applied to the
matched digit groups: `none` models the `ValueError` raised when the
digits do not form a valid calendar date / time of day (month outside
1–12, day outside the month, hour > 23, minute > 59, second > 59). -/
def parse_datetime_from_log (g : MatchG) : Option DateTime :=
  let y := yearFrom2 g.year2
  if 1 ≤ g.month ∧ g.month ≤ 12 ∧ 1 ≤ g.day ∧ g.day ≤ daysInMonth y g.month
      ∧ g.hour ≤ 23 ∧ g.minute ≤ 59 ∧ g.second ≤ 59
  then some ⟨y, g.month, g.day, g.hour, g.minute, g.second⟩
  else none

/-- Value of `int(qty_str)` for a digit string. -/
def natOfDigits (ds : List Char) : Nat := ds.foldl (fun n c => n * 10 + digitVal c) 0

/-- Model of `parse_log_line`: search the line with `LOG_LINE_RE`; no match is the
normal `None`; a match whose timestamp digits are invalid raises
`ValueError` (modelled as `Except.error`), which the source does not
catch. -/
def parse_log_line (line : String) : Except String (Option LootEvent) :=
  match searchMatch line.data with
  | none => Except.ok none
  | some g =>
    match parse_datetime_from_log g with
    | none => Except.error ("ValueError")
    | some ts => Except.ok (some ⟨ts, natOfDigits g.qtyDigits, String.mk g.item⟩)

/-- Modelled from the spec: the exact full-line shape of §4.1/§6 —
a two-part bracketed timestamp, the literal `: You receive `, an integer
quantity, a space, a non-empty item name, and a *terminating* period
ending the line, with nothing before or after. Used only to compare the
spec's wording against the code's `re.search` behaviour. -/
def spec_exact_shape (line : String) : Bool :=
  match matchHeader line.data with
  | none => false
  | some (_, _, _, _, _, _, cs) =>
    match digitRun cs with
    | ([], _) => false
    | (_ :: _, ' ' :: rest) =>
      match rest.reverse with
      | '.' :: it => !it.isEmpty
      | _ => false
    | (_ :: _, _) => false

/-! ## Window aggregator (`LiveMonitorWorker`)

The worker compares and subtracts `datetime` values only along the time
axis, so its events are embedded with the timestamp abstracted to a point
on that axis (seconds, as an `Int`); `timedelta(minutes=m)` is `60 * m`
seconds. -/

/-- A `LootEvent` as held in the worker's window, with the `datetime`
timestamp abstracted to seconds on the time axis. -/
structure WEvent where
  ts : Int
  quantity : Int
  item : String
deriving DecidableEq

/-- The retention state of `LiveMonitorWorker`: the deque `self.window`
plus the three policy fields of `__init__`. -/
structure Worker where
  window : List WEvent
  window_minutes : Int
  fixed_start_ts : Option Int
  unlimited : Bool
deriving DecidableEq

/-- Model of `LiveMonitorWorker.add_event`: append, then trim from the front
according to the active retention policy (never for `unlimited`, against
`fixed_start_ts` when set, else against `ev.ts - timedelta(minutes=window_minutes)`). -/
def add_event (w : Worker) (ev : WEvent) : Worker :=
  let win := w.window ++ [ev]
  if w.unlimited then { w with window := win }
  else
    match w.fixed_start_ts with
    | some fs => { w with window := win.dropWhile (fun e => e.ts < fs) }
    | none =>
      let cutoff := ev.ts - 60 * w.window_minutes
      { w with window := win.dropWhile (fun e => e.ts < cutoff) }

/-- A freshly started worker in trailing-window mode. -/
def trailing_worker (m : Int) : Worker := ⟨[], m, none, false⟩

/-- Feed a sequence of parsed events to `add_event` one by one. -/
def run_events (w : Worker) (evs : List WEvent) : Worker := evs.foldl add_event w

/-- Python 3 `round` to the nearest integer, ties to even, applied to the
exact rational modelling of the float computation. -/
def pyRound (q : ℚ) : Int :=
  if q - ⌊q⌋ < 1 / 2 then ⌊q⌋
  else if 1 / 2 < q - ⌊q⌋ then ⌊q⌋ + 1
  else if ⌊q⌋ % 2 = 0 then ⌊q⌋ else ⌊q⌋ + 1

/-- The `defaultdict(int)` accumulation `items_qty[ev.item] += ev.quantity`,
keeping dict insertion order. -/
def addQty : List (String × Int) → String → Int → List (String × Int)
  | [], name, q => [(name, q)]
  | (n, x) :: rest, name, q =>
    if n = name then (n, x + q) :: rest else (n, x) :: addQty rest name q

/-- Stable insertion keeping descending quantity order (`list.sort` with
`key=lambda x: x[1], reverse=True`): a new element goes after all existing
elements of greater or equal quantity. -/
def insertByQty (x : String × Int × Int) : List (String × Int × Int) → List (String × Int × Int)
  | [] => [x]
  | y :: ys => if y.2.1 < x.2.1 then x :: y :: ys else y :: insertByQty x ys

def sortByQtyDesc (l : List (String × Int × Int)) : List (String × Int × Int) :=
  l.foldl (fun acc x => insertByQty x acc) []

/-- Last element (`events_list[-1]`) with a default for the empty tail (kernel-reducible
replacement for `List.getLastD`). -/
def lastD : List WEvent → WEvent → WEvent
  | [], d => d
  | x :: xs, _ => lastD xs x

/-- The snapshot dict built by `compute_stats_from_window` and consumed by
`update_stats`. `items` entries are `(name, qty, per_hour)`. -/
structure Stats where
  start_ts : Int
  end_ts : Int
  hours : ℚ
  minutes : ℚ
  total_yang : Int
  yang_per_hour : Int
  yang_per_minute : Int
  items : List (String × Int × Int)
deriving DecidableEq

/-- Model of `LiveMonitorWorker.compute_stats_from_window`. -/
def compute_stats_from_window (window : List WEvent) : Option Stats :=
  match window with
  | [] => none
  | e :: es =>
    let events_list := e :: es
    let total_yang :=
      (events_list.filter (fun ev => ev.item == "Yang")).foldl (fun a ev => a + ev.quantity) 0
    let items_qty := events_list.foldl
      (fun acc ev => if ev.item == "Yang" then acc else addQty acc ev.item ev.quantity) []
    let last := lastD es e
    let elapsed : Int := if last.ts - e.ts < 1 then 1 else last.ts - e.ts
    let hours : ℚ := (elapsed : ℚ) / 3600
    let minutes : ℚ := (elapsed : ℚ) / 60
    let items_list :=
      sortByQtyDesc (items_qty.map (fun p => (p.1, p.2, pyRound ((p.2 : ℚ) / hours))))
    some
      { start_ts := e.ts
        end_ts := last.ts
        hours := hours
        minutes := minutes
        total_yang := total_yang
        yang_per_hour := pyRound ((total_yang : ℚ) / hours)
        yang_per_minute := pyRound ((total_yang : ℚ) / minutes)
        items := items_list }

/-! ## Crafting reconciliation engine (`LootMonitorApp`)

The pass/crafting state of `LootMonitorApp` and the methods that mutate
it. `pass_states` is the dict name → `{"total", "crafted", "dropped"}`;
`crafting_item_delta` is the `defaultdict(int)`. The UI rendering around
these methods is dropped; `update_stats` is modelled up to and including
every field assignment it performs on this state. The trailing
`self.update_stats(self.last_stats)` refresh done by the reconciliation
methods re-applies the modelled `update_stats` to the cached snapshot and
is left to explicit composition. -/

/-- One entry of `self.pass_states`. -/
structure PassState where
  total : Int
  crafted : Int
  dropped : Int
deriving DecidableEq

/-- One entry of `PASS_COSTS`: the crafting cost of one pass. -/
structure Cost where
  yang : Int
  items : List (String × Int)
deriving DecidableEq

/-- The static `PASS_COSTS` table (`self.pass_costs`). -/
def PASS_COSTS : List (String × Cost) :=
  [ (("Hellish Pass"),
      ⟨2000000, [(("Fragment of a Pass [U-1]"), 1), (("Fragment of a Pass [U-2]"), 1),
        (("Shard"), 400)]⟩)
  , (("Ice-cold Pass"),
      ⟨1500000, [(("Fragment of a Pass [N-1]"), 1), (("Fragment of a Pass [N-2]"), 1),
        (("Shard"), 200)]⟩)
  , (("Grass-covered Pass"),
      ⟨1500000, [(("Fragment of a Pass [J-1]"), 1), (("Fragment of a Pass [J-2]"), 1),
        (("Shard"), 200)]⟩)
  , (("Charred Pass"),
      ⟨1500000, [(("Fragment of a Pass [R-1]"), 1), (("Fragment of a Pass [R-2]"), 1),
        (("Shard"), 200)]⟩)
  , (("Owl Pass"),
      ⟨2000000, [(("Piece of an Owl Pass [L]"), 1), (("Piece of an Owl Pass [R]"), 1),
        (("Shard"), 500)]⟩)
  , (("Taliko's Paradise Pass"),
      ⟨2000000, [(("Piece of a Papyrus [L]"), 1), (("Piece of a Papyrus [R]"), 1),
        (("Shard"), 700)]⟩)
  , (("Demonic Key"),
      ⟨5000000, [(("Piece of a Demonic Key [1]"), 1), (("Piece of a Demonic Key [2]"), 1),
        (("Shard"), 1000)]⟩)
  , (("Nalantir's Tooth"),
      ⟨7500000, [(("Broken Dragon Tooth [1]"), 1), (("Broken Dragon Tooth [2]"), 1),
        (("Shard"), 1500)]⟩)
  , (("Map to the Abandoned Fortress"),
      ⟨7500000, [(("Part of an Ancient Map [1]"), 1), (("Part of an Ancient Map [2]"), 1),
        (("Shard"), 2000)]⟩) ]

/-- Lookup `self.pass_costs.get(name)`. -/
def lookupCost (name : String) : Option Cost :=
  (PASS_COSTS.find? (fun p => p.1 == name)).map (fun p => p.2)

/-- Lookup `self.pass_states.get(name)` (first-match dict lookup). -/
def lookupState : List (String × PassState) → String → Option PassState
  | [], _ => none
  | p :: ps, name => if p.1 == name then some p.2 else lookupState ps name

/-- Lookup `d.get(key, default)` for an `int`-valued dict (first match). -/
def lookupD : List (String × Int) → String → Int → Int
  | [], _, d => d
  | p :: ps, k, d => if p.1 == k then p.2 else lookupD ps k d

/-- In-place mutation of the (unique) dict entry for `name`: replace the
value of the first matching key. -/
def setEntry : List (String × PassState) → String → (PassState → PassState) →
    List (String × PassState)
  | [], _, _ => []
  | p :: ps, name, f =>
    if p.1 == name then (p.1, f p.2) :: ps else p :: setEntry ps name f

/-- The `crafting_yang_delta` loop of `recalc_crafting_deltas_from_passes`:
skip states with `crafted <= 0`, skip names missing from the cost table,
otherwise accumulate `crafted * cost["yang"]`. -/
def recalc_yang_delta (states : List (String × PassState)) : Int :=
  states.foldl
    (fun (acc : Int) (p : String × PassState) =>
      if p.2.crafted ≤ 0 then acc
      else
        match lookupCost p.1 with
        | none => acc
        | some c => acc + p.2.crafted * c.yang) 0

/-- The inner loop `for item, qty in cost["items"].items():
crafting_item_delta[item] += crafted * qty`. -/
def add_cost_items (crafted : Int) (items : List (String × Int)) (acc : String → Int) :
    String → Int :=
  items.foldl (fun (a : String → Int) (q : String × Int) =>
    fun x => if x == q.1 then a x + crafted * q.2 else a x) acc

/-- The `crafting_item_delta` part of `recalc_crafting_deltas_from_passes`,
rebuilt from a cleared `defaultdict(int)`. -/
def recalc_item_delta (states : List (String × PassState)) : String → Int :=
  states.foldl
    (fun (acc : String → Int) (p : String × PassState) =>
      if p.2.crafted ≤ 0 then acc
      else
        match lookupCost p.1 with
        | none => acc
        | some c => add_cost_items p.2.crafted c.items acc)
    (fun _ => 0)

/-- The "Initialize / update pass states" loop of `update_stats`: first
observation of a cost-table name creates `{total: qty, crafted: qty,
dropped: 0}`; a later observation with `delta = qty - total > 0` adds the
delta to both `total` and `crafted`. -/
def update_pass_states (states : List (String × PassState))
    (base_items : List (String × Int)) : List (String × PassState) :=
  base_items.foldl
    (fun (sts : List (String × PassState)) (p : String × Int) =>
      match lookupCost p.1 with
      | none => sts
      | some _ =>
        match lookupState sts p.1 with
        | none => sts ++ [(p.1, ⟨p.2, p.2, 0⟩)]
        | some st =>
          let delta := p.2 - st.total
          if 0 < delta then
            setEntry sts p.1 (fun s => ⟨s.total + delta, s.crafted + delta, s.dropped⟩)
          else sts)
    states

/-- The crafting/stats state of `LootMonitorApp` touched by the claims. -/
structure AppState where
  pass_states : List (String × PassState)
  crafting_yang_delta : Int
  crafting_item_delta : String → Int
  base_yang : Int
  base_items : List (String × Int)
  base_item_rates : String → Int
  data_hours : ℚ
  net_yang : Int
  net_yang_per_hour : ℚ

/-- A freshly reset app (`reset_session_data`). -/
def app0 : AppState :=
  { pass_states := []
    crafting_yang_delta := 0
    crafting_item_delta := fun _ => 0
    base_yang := 0
    base_items := []
    base_item_rates := fun _ => 0
    data_hours := 0
    net_yang := 0
    net_yang_per_hour := 0 }

/-- Model of `recalc_crafting_deltas_from_passes`. -/
def recalc_app (app : AppState) : AppState :=
  { app with
    crafting_yang_delta := recalc_yang_delta app.pass_states
    crafting_item_delta := recalc_item_delta app.pass_states }

/-- Model of `LootMonitorApp.update_stats` restricted to the state it mutates, in
source order: `data_hours`, `base_items`, the pass-state
initialize/update loop, `base_item_rates`, `base_yang`, then the net-rate
computation (which reads the *pre-existing* `crafting_yang_delta`), then
`recalc_crafting_deltas_from_passes()`, then `net_yang` from the
recomputed delta. The `render_items` call at the end cannot create
further pass states because the loop above already created one for every
cost-table name present in `base_items`. -/
def update_stats (app : AppState) (stats : Stats) : AppState :=
  let data_hours : ℚ := if 0 < stats.hours then stats.hours else 0
  let base_items := stats.items.map (fun t => (t.1, t.2.1))
  let pass_states := update_pass_states app.pass_states base_items
  let base_item_rates : String → Int :=
    fun n => lookupD (stats.items.map (fun t => (t.1, t.2.2))) n 0
  let base_yang := stats.total_yang
  let elapsed_hours : ℚ := if 0 < stats.hours then stats.hours else 1 / 1000000
  let net_yang_per_hour : ℚ :=
    (base_yang : ℚ) / elapsed_hours - (app.crafting_yang_delta : ℚ) / elapsed_hours
  let crafting_yang_delta := recalc_yang_delta pass_states
  let crafting_item_delta := recalc_item_delta pass_states
  { pass_states := pass_states
    crafting_yang_delta := crafting_yang_delta
    crafting_item_delta := crafting_item_delta
    base_yang := base_yang
    base_items := base_items
    base_item_rates := base_item_rates
    data_hours := data_hours
    net_yang := base_yang - crafting_yang_delta
    net_yang_per_hour := net_yang_per_hour }

/-- Model of the `apply()` closure of `open_pass_count_editor` (the
reclassification surface):
unknown names and `dropped` outside `[0, total]` return with no state
change; otherwise `dropped` is set and `crafted = total - dropped`. -/
def reclassify (app : AppState) (name : String) (dropped : Int) : AppState :=
  match lookupState app.pass_states name with
  | none => app
  | some st =>
    if dropped < 0 ∨ st.total < dropped then app
    else
      recalc_app
        { app with
          pass_states :=
            setEntry app.pass_states name (fun s => ⟨s.total, s.total - dropped, dropped⟩) }

/-- Model of `set_pass_all_crafted`. -/
def set_pass_all_crafted (app : AppState) (name : String) : AppState :=
  match lookupState app.pass_states name with
  | none => app
  | some _ =>
    recalc_app
      { app with
        pass_states := setEntry app.pass_states name (fun s => ⟨s.total, s.total, 0⟩) }

/-- Model of `set_pass_all_dropped`. -/
def set_pass_all_dropped (app : AppState) (name : String) : AppState :=
  match lookupState app.pass_states name with
  | none => app
  | some _ =>
    recalc_app
      { app with
        pass_states := setEntry app.pass_states name (fun s => ⟨s.total, 0, s.total⟩) }

/-- Model of `get_last_seen_pass`: the last `base_items` key that is a tracked
pass. -/
def get_last_seen_pass (app : AppState) : Option String :=
  (app.base_items.reverse.find? (fun p => (lookupState app.pass_states p.1).isSome)).map
    (fun p => p.1)

/-- Model of `increment_last_pass_dropped` (the overlay's "+1 Dropped" button):
convert one crafted unit of the last seen pass into a dropped one, if any
crafted unit is left. -/
def increment_last_pass_dropped (app : AppState) : AppState :=
  match get_last_seen_pass app with
  | none => app
  | some name =>
    match lookupState app.pass_states name with
    | none => app
    | some st =>
      if st.crafted ≤ 0 then app
      else
        recalc_app
          { app with
            pass_states :=
              setEntry app.pass_states name (fun s => ⟨s.total, s.crafted - 1, s.dropped + 1⟩) }

/-- The per-item net rate of one `render_items` row:
`base_per_hour - crafted_qty / data_hours` when `data_hours > 0`, the
(already rounded) `base_per_hour` otherwise. -/
def render_net_per_hour (app : AppState) (name : String) : ℚ :=
  let base_per_hour := app.base_item_rates name
  let crafted_qty := app.crafting_item_delta name
  if 0 < app.data_hours then (base_per_hour : ℚ) - (crafted_qty : ℚ) / app.data_hours
  else (base_per_hour : ℚ)

/-- Modelled from the spec (§4.4): `total_crafting_currency_delta` as the
sum, over every tracked pass type with `crafted > 0` that is a key of the
cost table, of `crafted × unit_currency_cost`. -/
def spec_yang_delta (states : List (String × PassState)) : Int :=
  (states.map
      (fun p =>
        if 0 < p.2.crafted then
          match lookupCost p.1 with
          | some c => p.2.crafted * c.yang
          | none => 0
        else 0)).sum

/-- Modelled from the spec (§4.4): `per_item_crafting_delta` at one item
as the analogous sum over sub-item costs. -/
def spec_item_delta (states : List (String × PassState)) (item : String) : Int :=
  (states.map
      (fun p =>
        if 0 < p.2.crafted then
          match lookupCost p.1 with
          | some c => p.2.crafted * lookupD c.items item 0
          | none => 0
        else 0)).sum

/-- The spec's per-pass-type invariant: `crafted + dropped == total` with
both non-negative. -/
def InvP (st : PassState) : Prop :=
  st.crafted + st.dropped = st.total ∧ 0 ≤ st.crafted ∧ 0 ≤ st.dropped

instance (st : PassState) : Decidable (InvP st) := by
  unfold InvP
  infer_instance

/-- The invariant for every tracked pass type of a state dict. -/
def InvAll (states : List (String × PassState)) : Prop :=
  ∀ p ∈ states, InvP p.2

instance (states : List (String × PassState)) : Decidable (InvAll states) := by
  unfold InvAll
  infer_instance

/-- Snapshot used in concrete scenarios: "Hellish Pass" observed with
total 5 over a one-hour window. -/
def statsHP5 : Stats :=
  { start_ts := 0
    end_ts := 3600
    hours := 1
    minutes := 60
    total_yang := 0
    yang_per_hour := 0
    yang_per_minute := 0
    items := [(("Hellish Pass"), 5, 5)] }

/-- Like `statsHP5` but with the observed total increased to 8. -/
def statsHP8 : Stats :=
  { start_ts := 0
    end_ts := 3600
    hours := 1
    minutes := 60
    total_yang := 0
    yang_per_hour := 0
    yang_per_minute := 0
    items := [(("Hellish Pass"), 8, 8)] }

/-- The fixed valid-timestamp prefix used to build concrete and generic
log lines: `[01/01/25] [00:00:00]: You receive `. -/
def HEADER : List Char := ("[01/01/25] [00:00:00]: You receive ").data

/-- A line that `re.search` accepts although it is not of the exact
full-line shape (leading and trailing junk around the matched part). -/
def cexLineShape : String := "x[01/01/25] [00:00:00]: You receive 5 Apple. junk"

/-- A line whose digits pass the regex shape but do not form a valid
calendar date (month 99). -/
def cexLineBadDate : String := "[99/99/99] [00:00:00]: You receive 5 Apple."

/-- Validity of the matched timestamp digits as a calendar date and time
of day (the condition under which `datetime.strptime` succeeds). -/
def valid_dt (g : MatchG) : Prop :=
  1 ≤ g.month ∧ g.month ≤ 12 ∧ 1 ≤ g.day ∧ g.day ≤ daysInMonth (yearFrom2 g.year2) g.month
    ∧ g.hour ≤ 23 ∧ g.minute ≤ 59 ∧ g.second ≤ 59

instance (g : MatchG) : Decidable (valid_dt g) := by
  unfold valid_dt
  infer_instance

/-- Window for the per-item rate counterexample: one "Stone" at the start
and some Yang three hours later. -/
def cexWindowC8 : List WEvent := [⟨0, 1, ("Stone")⟩, ⟨10800, 5, ("Yang")⟩]

/-- The snapshot `compute_stats_from_window` produces for `cexWindowC8`:
three hours elapsed, the Stone rate `1/3` already rounded to `0`. -/
def cexStatsC8 : Stats := ⟨0, 10800, 3, 180, 5, 2, 0, [(("Stone"), 1, 0)]⟩

/-- Concrete event sequence for the trailing-window witness. -/
def wEvs : List WEvent := [⟨0, 1, ("a")⟩, ⟨30, 1, ("b")⟩]

/-- The last event appended in the trailing-window witness. -/
def wEv3 : WEvent := ⟨70, 1, ("c")⟩

/-! ## Lemmas -/

/-- The expected window contents after a trailing-mode run: empty for no
events, otherwise exactly the events within the duration of the latest
one. -/
def trailing_expected (m : Int) (evs : List WEvent) : List WEvent :=
  match evs.getLast? with
  | none => []
  | some last => evs.filter (fun e => last.ts - 60 * m ≤ e.ts)

lemma dropWhile_lt_eq_filter (c : Int) :
    ∀ l : List WEvent, l.Pairwise (fun a b => a.ts ≤ b.ts) →
      l.dropWhile (fun e => e.ts < c) = l.filter (fun e => c ≤ e.ts)
  | [], _ => rfl
  | e :: es, h => by
    rcases List.pairwise_cons.mp h with ⟨hle, hps⟩
    by_cases hc : e.ts < c
    · have hnc : ¬ c ≤ e.ts := not_le.mpr hc
      simp [List.dropWhile_cons, List.filter_cons, hc, hnc,
        dropWhile_lt_eq_filter c es hps]
    · have hcle : c ≤ e.ts := not_lt.mp hc
      have hall : ∀ x ∈ es, c ≤ x.ts := fun x hx => le_trans hcle (hle x hx)
      simp only [List.dropWhile_cons, List.filter_cons]
      simp only [hc, decide_eq_true_eq, if_neg, decide_eq_true hcle, if_pos]
      simp [List.filter_eq_self.mpr (fun x hx => decide_eq_true (hall x hx))]

lemma run_events_append (w : Worker) (l : List WEvent) (ev : WEvent) :
    run_events w (l ++ [ev]) = add_event (run_events w l) ev := by
  simp [run_events, List.foldl_append]

lemma trailing_run_eq (m : Int) (evs : List WEvent)
    (h : evs.Pairwise (fun a b => a.ts ≤ b.ts)) :
    run_events (trailing_worker m) evs = ⟨trailing_expected m evs, m, none, false⟩ := by
  induction evs using List.reverseRecOn with
  | nil => rfl
  | append_singleton l ev ih =>
    have hl : l.Pairwise (fun a b => a.ts ≤ b.ts) :=
      h.sublist (List.sublist_append_left l [ev])
    have hle : ∀ x ∈ l, x.ts ≤ ev.ts := by
      have hsplit := List.pairwise_append.mp h
      exact fun x hx => hsplit.2.2 x hx ev (List.mem_singleton_self ev)
    rw [run_events_append, ih hl]
    have hexp : trailing_expected m (l ++ [ev])
        = (l ++ [ev]).filter (fun e => ev.ts - 60 * m ≤ e.ts) := by
      simp [trailing_expected, List.getLast?_concat]
    rw [hexp]
    show Worker.mk
        (((trailing_expected m l) ++ [ev]).dropWhile (fun e => e.ts < ev.ts - 60 * m))
        m none false = _
    rcases hlast : l.getLast? with _ | last
    · have hnil : l = [] := List.getLast?_eq_none_iff.mp hlast
      subst hnil
      have : ([] : List WEvent).Pairwise (fun a b => a.ts ≤ b.ts) := List.Pairwise.nil
      rw [show trailing_expected m [] = [] from rfl]
      rw [dropWhile_lt_eq_filter (ev.ts - 60 * m) ([] ++ [ev])
        (by simp [List.pairwise_cons])]
    · have hlm : last ∈ l := List.mem_of_getLast?_eq_some hlast
      have hcut : last.ts - 60 * m ≤ ev.ts - 60 * m := by
        have := hle last hlm
        omega
      have hwin : trailing_expected m l = l.filter (fun e => last.ts - 60 * m ≤ e.ts) := by
        simp [trailing_expected, hlast]
      rw [hwin]
      have hmono : (l.filter (fun e => last.ts - 60 * m ≤ e.ts) ++ [ev]).Pairwise
          (fun a b => a.ts ≤ b.ts) := by
        refine List.pairwise_append.mpr ⟨hl.sublist (List.filter_sublist l), ?_, ?_⟩
        · exact List.pairwise_singleton _ _
        · intro x hx y hy
          rw [List.mem_singleton] at hy
          subst hy
          exact hle x (List.mem_of_mem_filter hx)
      rw [dropWhile_lt_eq_filter (ev.ts - 60 * m) _ hmono]
      rw [List.filter_append, List.filter_filter]
      have hpt : ∀ a ∈ l,
          (decide (ev.ts - 60 * m ≤ a.ts) && decide (last.ts - 60 * m ≤ a.ts))
            = decide (ev.ts - 60 * m ≤ a.ts) := by
        intro a _
        by_cases ha : ev.ts - 60 * m ≤ a.ts
        · have h2 : last.ts - 60 * m ≤ a.ts := le_trans hcut ha
          simp [ha, h2]
        · simp [ha]
      rw [List.filter_congr hpt, List.filter_append]

/-- C1: for every sequence of events with non-decreasing timestamps
appended one by one to a trailing-window aggregator with duration
`60 * m` seconds (`window_minutes = m`), after each append the window
contains exactly those events appended so far whose timestamp is at least
the just-appended (latest) event's timestamp minus the duration; the
window is moreover a suffix of the appended sequence, so eviction removed
events only from the front. -/
theorem trailing_window_exact (m : Int) (p : List WEvent) (ev : WEvent)
    (h : (p ++ [ev]).Pairwise (fun a b => a.ts ≤ b.ts)) :
    (run_events (trailing_worker m) (p ++ [ev])).window
        = (p ++ [ev]).filter (fun e => ev.ts - 60 * m ≤ e.ts)
      ∧ (run_events (trailing_worker m) (p ++ [ev])).window <:+ (p ++ [ev]) := by
  have hwin : (run_events (trailing_worker m) (p ++ [ev])).window
      = (p ++ [ev]).filter (fun e => ev.ts - 60 * m ≤ e.ts) := by
    rw [trailing_run_eq m (p ++ [ev]) h]
    simp [trailing_expected, List.getLast?_concat]
  refine ⟨hwin, ?_⟩
  rw [hwin, ← dropWhile_lt_eq_filter (ev.ts - 60 * m) _ h]
  exact List.dropWhile_suffix _

/-- Witness for C1 at a concrete run: three events at seconds 0, 30, 70
with a one-minute window; after the third append only the last two
remain. -/
theorem trailing_window_exact_witness :
    (wEvs ++ [wEv3]).Pairwise (fun a b => a.ts ≤ b.ts)
      ∧ ((run_events (trailing_worker 1) (wEvs ++ [wEv3])).window
            = (wEvs ++ [wEv3]).filter (fun e => wEv3.ts - 60 * 1 ≤ e.ts)
          ∧ (run_events (trailing_worker 1) (wEvs ++ [wEv3])).window <:+ (wEvs ++ [wEv3])) :=
  ⟨by decide, trailing_window_exact 1 wEvs wEv3 (by decide)⟩

lemma lookupD_eq_default (items : List (String × Int)) (x : String)
    (h : x ∉ items.map Prod.fst) : lookupD items x 0 = 0 := by
  induction items with
  | nil => simp [lookupD]
  | cons p rest ih =>
    simp only [List.map_cons, List.mem_cons, not_or] at h
    have hne : ¬ (p.1 == x) = true := by
      simp only [beq_iff_eq]
      exact fun e => h.1 e.symm
    simp only [lookupD, if_neg hne]
    exact ih h.2

lemma pass_costs_items_nodup : ∀ p ∈ PASS_COSTS, (p.2.items.map Prod.fst).Nodup := by decide

lemma lookupCost_items_nodup {n : String} {c : Cost} (h : lookupCost n = some c) :
    (c.items.map Prod.fst).Nodup := by
  unfold lookupCost at h
  rcases hf : PASS_COSTS.find? (fun p => p.1 == n) with _ | p
  · rw [hf] at h
    simp at h
  · rw [hf] at h
    simp at h
    subst h
    exact pass_costs_items_nodup p (List.mem_of_find?_eq_some hf)

lemma add_cost_items_eval (crafted : Int) (items : List (String × Int)) :
    ∀ (acc : String → Int) (x : String), (items.map Prod.fst).Nodup →
      add_cost_items crafted items acc x = acc x + crafted * lookupD items x 0 := by
  induction items with
  | nil =>
    intro acc x _
    simp [add_cost_items, lookupD]
  | cons p rest ih =>
    intro acc x h
    simp only [List.map_cons, List.nodup_cons] at h
    have hstep : add_cost_items crafted (p :: rest) acc
        = add_cost_items crafted rest
            (fun y => if y == p.1 then acc y + crafted * p.2 else acc y) := rfl
    rw [hstep, ih _ x h.2]
    by_cases hx : x = p.1
    · have h0 : lookupD rest x 0 = 0 := by
        refine lookupD_eq_default rest x ?_
        rw [hx]
        exact h.1
      have hpos : (p.1 == x) = true := by simp [beq_iff_eq, hx.symm]
      have hpos2 : (x == p.1) = true := by simp [beq_iff_eq, hx]
      simp only [lookupD, if_pos hpos, if_pos hpos2, h0]
      ring
    · have hne : ¬ (p.1 == x) = true := by
        simp only [beq_iff_eq]
        exact fun e => hx e.symm
      have hne2 : ¬ (x == p.1) = true := by
        simp only [beq_iff_eq]
        exact hx
      simp only [lookupD, if_neg hne, if_neg hne2]

lemma recalc_yang_delta_go (states : List (String × PassState)) :
    ∀ a : Int,
      states.foldl
        (fun (acc : Int) (p : String × PassState) =>
          if p.2.crafted ≤ 0 then acc
          else
            match lookupCost p.1 with
            | none => acc
            | some c => acc + p.2.crafted * c.yang) a
        = a + spec_yang_delta states := by
  induction states with
  | nil =>
    intro a
    simp [spec_yang_delta]
  | cons p ps ih =>
    intro a
    rw [List.foldl_cons]
    by_cases hc : p.2.crafted ≤ 0
    · rw [if_pos hc, ih a]
      simp [spec_yang_delta, not_lt.mpr hc]
    · rw [if_neg hc]
      have h0 : 0 < p.2.crafted := not_le.mp hc
      rcases hcost : lookupCost p.1 with _ | c
      · simp only [hcost]
        rw [ih a]
        simp [spec_yang_delta, h0, hcost]
      · simp only [hcost]
        rw [ih (a + p.2.crafted * c.yang)]
        simp only [spec_yang_delta, List.map_cons, List.sum_cons, hcost, if_pos h0]
        ring

lemma recalc_yang_delta_eq (states : List (String × PassState)) :
    recalc_yang_delta states = spec_yang_delta states := by
  have h := recalc_yang_delta_go states 0
  simpa [recalc_yang_delta] using h

lemma recalc_item_delta_go (states : List (String × PassState)) :
    ∀ (acc : String → Int) (x : String),
      (states.foldl
          (fun (acc : String → Int) (p : String × PassState) =>
            if p.2.crafted ≤ 0 then acc
            else
              match lookupCost p.1 with
              | none => acc
              | some c => add_cost_items p.2.crafted c.items acc) acc) x
        = acc x + spec_item_delta states x := by
  induction states with
  | nil =>
    intro acc x
    simp [spec_item_delta]
  | cons p ps ih =>
    intro acc x
    rw [List.foldl_cons]
    by_cases hc : p.2.crafted ≤ 0
    · rw [if_pos hc, ih acc x]
      simp [spec_item_delta, not_lt.mpr hc]
    · rw [if_neg hc]
      have h0 : 0 < p.2.crafted := not_le.mp hc
      rcases hcost : lookupCost p.1 with _ | c
      · simp only [hcost]
        rw [ih acc x]
        simp [spec_item_delta, h0, hcost]
      · simp only [hcost]
        rw [ih _ x]
        rw [add_cost_items_eval _ _ _ _ (lookupCost_items_nodup hcost)]
        simp only [spec_item_delta, List.map_cons, List.sum_cons, hcost, if_pos h0]
        ring

lemma recalc_item_delta_eq (states : List (String × PassState)) (x : String) :
    recalc_item_delta states x = spec_item_delta states x := by
  have h := recalc_item_delta_go states (fun _ => 0) x
  simpa [recalc_item_delta] using h

/-- C2: whenever `update_stats` recomputes the net figures, net currency
equals the snapshot's raw currency total minus the sum, over every
tracked pass type with `crafted > 0` that is a key of the cost table, of
`crafted × unit_currency_cost`, and the per-item delta is the analogous
sum over sub-item costs — both fully recomputed from the (just updated)
`pass_states`, independent of any previously accumulated delta. -/
theorem net_currency_minus_crafting (app : AppState) (s : Stats) :
    (update_stats app s).net_yang
        = s.total_yang - spec_yang_delta (update_stats app s).pass_states
      ∧ (update_stats app s).crafting_yang_delta
          = spec_yang_delta (update_stats app s).pass_states
      ∧ ∀ item, (update_stats app s).crafting_item_delta item
          = spec_item_delta (update_stats app s).pass_states item := by
  refine ⟨?_, ?_, fun item => ?_⟩ <;>
    simp [update_stats, recalc_yang_delta_eq, recalc_item_delta_eq]

lemma InvP_of_lookupState :
    ∀ (sts : List (String × PassState)) (name : String) (st : PassState),
      InvAll sts → lookupState sts name = some st → InvP st
  | [], _, _, _, h => by simp [lookupState] at h
  | p :: ps, name, st, hInv, h => by
    rw [lookupState] at h
    by_cases hb : (p.1 == name) = true
    · rw [if_pos hb] at h
      have : p.2 = st := Option.some.inj h
      subst this
      exact hInv p (List.mem_cons_self p ps)
    · rw [if_neg hb] at h
      exact InvP_of_lookupState ps name st
        (fun q hq => hInv q (List.mem_cons_of_mem p hq)) h

lemma InvAll_setEntry :
    ∀ (sts : List (String × PassState)) (name : String) (f : PassState → PassState),
      InvAll sts → (∀ st, lookupState sts name = some st → InvP (f st)) →
      InvAll (setEntry sts name f)
  | [], _, _, _, _ => by simp [setEntry, InvAll]
  | p :: ps, name, f, hInv, hf => by
    rw [setEntry]
    by_cases hb : (p.1 == name) = true
    · rw [if_pos hb]
      intro q hq
      rcases List.mem_cons.mp hq with hq | hq
      · cases hq
        exact hf _ (by rw [lookupState, if_pos hb])
      · exact hInv q (List.mem_cons_of_mem p hq)
    · rw [if_neg hb]
      intro q hq
      rcases List.mem_cons.mp hq with hq | hq
      · cases hq
        exact hInv _ (List.mem_cons_self p ps)
      · exact InvAll_setEntry ps name f
          (fun r hr => hInv r (List.mem_cons_of_mem p hr))
          (fun st hst => hf st (by rw [lookupState, if_neg hb]; exact hst)) q hq

lemma lookupState_setEntry_self :
    ∀ (sts : List (String × PassState)) (name : String) (f : PassState → PassState)
      (st : PassState), lookupState sts name = some st →
      lookupState (setEntry sts name f) name = some (f st)
  | [], _, _, _, h => by simp [lookupState] at h
  | p :: ps, name, f, st, h => by
    rw [lookupState] at h
    rw [setEntry]
    by_cases hb : (p.1 == name) = true
    · rw [if_pos hb] at h
      rw [if_pos hb, lookupState, if_pos hb, Option.some.inj h]
    · rw [if_neg hb] at h
      rw [if_neg hb, lookupState, if_neg hb]
      exact lookupState_setEntry_self ps name f st h

lemma InvAll_append_single (sts : List (String × PassState)) (q : String × PassState)
    (hInv : InvAll sts) (hq : InvP q.2) : InvAll (sts ++ [q]) := by
  intro r hr
  rcases List.mem_append.mp hr with hr | hr
  · exact hInv r hr
  · rw [List.mem_singleton] at hr
    subst hr
    exact hq

lemma update_pass_states_inv :
    ∀ (items : List (String × Int)) (sts : List (String × PassState)),
      InvAll sts → (∀ p ∈ items, 0 ≤ p.2) → InvAll (update_pass_states sts items)
  | [], sts, hInv, _ => hInv
  | p :: ps, sts, hInv, hq => by
    have hq0 : 0 ≤ p.2 := hq p (List.mem_cons_self p ps)
    have hqs : ∀ r ∈ ps, 0 ≤ r.2 := fun r hr => hq r (List.mem_cons_of_mem p hr)
    have hstep : update_pass_states sts (p :: ps)
        = update_pass_states
            (match lookupCost p.1 with
             | none => sts
             | some _ =>
               match lookupState sts p.1 with
               | none => sts ++ [(p.1, ⟨p.2, p.2, 0⟩)]
               | some st =>
                 let delta := p.2 - st.total
                 if 0 < delta then
                   setEntry sts p.1 (fun s => ⟨s.total + delta, s.crafted + delta, s.dropped⟩)
                 else sts) ps := rfl
    rw [hstep]
    rcases hcost : lookupCost p.1 with _ | c
    · simp only [hcost]
      exact update_pass_states_inv ps sts hInv hqs
    · simp only [hcost]
      rcases hls : lookupState sts p.1 with _ | st
      · simp only [hls]
        refine update_pass_states_inv ps _ ?_ hqs
        refine InvAll_append_single sts _ hInv ?_
        simp only [InvP]
        refine ⟨?_, ?_, ?_⟩ <;> dsimp <;> omega
      · simp only [hls]
        by_cases hd : 0 < p.2 - st.total
        · rw [if_pos hd]
          refine update_pass_states_inv ps _ ?_ hqs
          refine InvAll_setEntry sts p.1 _ hInv ?_
          intro s hs
          have hInvS : InvP s := InvP_of_lookupState sts p.1 s hInv hs
          rcases hInvS with ⟨h1, h2, h3⟩
          simp only [InvP]
          refine ⟨?_, ?_, ?_⟩ <;> dsimp <;> omega
        · rw [if_neg hd]
          exact update_pass_states_inv ps sts hInv hqs

/-- C3: the pass-state invariant `crafted + dropped == total`,
`crafted, dropped ≥ 0` holds for every tracked pass type after every
state-changing operation — the creation/delta loop of a tick (for any
snapshot whose item quantities are non-negative, as produced by the
parser), reclassification, set-all-crafted, set-all-dropped, and the
single-unit dropped increment — provided it held before. -/
theorem pass_state_invariant (app : AppState) (hInv : InvAll app.pass_states) :
    (∀ items : List (String × Int), (∀ p ∈ items, 0 ≤ p.2) →
        InvAll (update_pass_states app.pass_states items))
      ∧ (∀ s : Stats, (∀ p ∈ s.items, 0 ≤ p.2.1) →
          InvAll (update_stats app s).pass_states)
      ∧ (∀ name dropped, InvAll (reclassify app name dropped).pass_states)
      ∧ (∀ name, InvAll (set_pass_all_crafted app name).pass_states)
      ∧ (∀ name, InvAll (set_pass_all_dropped app name).pass_states)
      ∧ InvAll (increment_last_pass_dropped app).pass_states := by
  refine ⟨fun items hq => update_pass_states_inv items app.pass_states hInv hq,
    fun s hq => ?_, fun name dropped => ?_, fun name => ?_, fun name => ?_, ?_⟩
  · show InvAll (update_pass_states app.pass_states (s.items.map (fun t => (t.1, t.2.1))))
    refine update_pass_states_inv _ app.pass_states hInv ?_
    intro p hp
    rcases List.mem_map.mp hp with ⟨t, ht, rfl⟩
    exact hq t ht
  · rcases hls : lookupState app.pass_states name with _ | st
    · simp [reclassify, hls, hInv]
    · by_cases hd : dropped < 0 ∨ st.total < dropped
      · simp [reclassify, hls, hd, hInv]
      · have hInvSt : InvP st := InvP_of_lookupState app.pass_states name st hInv hls
        simp only [reclassify, hls, if_neg hd]
        refine InvAll_setEntry app.pass_states name _ hInv ?_
        intro s hs
        have hs' : s = st := by
          rw [hls] at hs
          exact (Option.some.inj hs).symm
        subst hs'
        rcases hInvSt with ⟨h1, h2, h3⟩
        simp only [InvP]
        refine ⟨?_, ?_, ?_⟩ <;> dsimp <;> omega
  · rcases hls : lookupState app.pass_states name with _ | st
    · simp [set_pass_all_crafted, hls, hInv]
    · simp only [set_pass_all_crafted, hls]
      refine InvAll_setEntry app.pass_states name _ hInv ?_
      intro s hs
      have hInvS : InvP s := InvP_of_lookupState app.pass_states name s hInv hs
      rcases hInvS with ⟨h1, h2, h3⟩
      simp only [InvP]
      refine ⟨?_, ?_, ?_⟩ <;> dsimp <;> omega
  · rcases hls : lookupState app.pass_states name with _ | st
    · simp [set_pass_all_dropped, hls, hInv]
    · simp only [set_pass_all_dropped, hls]
      refine InvAll_setEntry app.pass_states name _ hInv ?_
      intro s hs
      have hInvS : InvP s := InvP_of_lookupState app.pass_states name s hInv hs
      rcases hInvS with ⟨h1, h2, h3⟩
      simp only [InvP]
      refine ⟨?_, ?_, ?_⟩ <;> dsimp <;> omega
  · rcases hlast : get_last_seen_pass app with _ | name
    · simp [increment_last_pass_dropped, hlast, hInv]
    · rcases hls : lookupState app.pass_states name with _ | st
      · simp [increment_last_pass_dropped, hlast, hls, hInv]
      · by_cases hc : st.crafted ≤ 0
        · simp [increment_last_pass_dropped, hlast, hls, hc, hInv]
        · have hInvSt : InvP st := InvP_of_lookupState app.pass_states name st hInv hls
          simp only [increment_last_pass_dropped, hlast, hls, if_neg hc]
          refine InvAll_setEntry app.pass_states name _ hInv ?_
          intro s hs
          have hs' : s = st := by
            rw [hls] at hs
            exact (Option.some.inj hs).symm
          subst hs'
          rcases hInvSt with ⟨h1, h2, h3⟩
          simp only [InvP]
          refine ⟨?_, ?_, ?_⟩ <;> dsimp <;> omega

/-- Witness for C3: the invariant, checked after a first tick, a
reclassification, both bulk reclassifications and the single-unit
increment on the concrete "Hellish Pass" session. -/
theorem pass_state_invariant_witness :
    InvAll (update_stats app0 statsHP5).pass_states
      ∧ InvAll (reclassify (update_stats app0 statsHP5) ("Hellish Pass") 2).pass_states
      ∧ InvAll (set_pass_all_crafted (update_stats app0 statsHP5) ("Hellish Pass")).pass_states
      ∧ InvAll (set_pass_all_dropped (update_stats app0 statsHP5) ("Hellish Pass")).pass_states
      ∧ InvAll (increment_last_pass_dropped (update_stats app0 statsHP5)).pass_states :=
  ⟨by decide,
    (pass_state_invariant (update_stats app0 statsHP5) (by decide)).2.2.1 ("Hellish Pass") 2,
    (pass_state_invariant (update_stats app0 statsHP5) (by decide)).2.2.2.1 ("Hellish Pass"),
    (pass_state_invariant (update_stats app0 statsHP5) (by decide)).2.2.2.2.1 ("Hellish Pass"),
    (pass_state_invariant (update_stats app0 statsHP5) (by decide)).2.2.2.2.2⟩

/-- C4: observing a tracked pass type with quantity `qty` greater than
its recorded total sets `total` to `qty` and adds the delta to `crafted`,
leaving `dropped` unchanged; and the spec's concrete scenario — first
observation at 5, `set_all_dropped`, then a tick at 8 — ends in
`{total: 8, crafted: 3, dropped: 5}`. -/
theorem observe_increase_policy (sts : List (String × PassState)) (name : String)
    (qty : Int) (st : PassState) (hc : (lookupCost name).isSome)
    (hl : lookupState sts name = some st) (hq : st.total < qty) :
    lookupState (update_pass_states sts [(name, qty)]) name
        = some ⟨qty, st.crafted + (qty - st.total), st.dropped⟩
      ∧ lookupState
            (update_stats (set_pass_all_dropped (update_stats app0 statsHP5) ("Hellish Pass"))
              statsHP8).pass_states ("Hellish Pass")
          = some ⟨8, 3, 5⟩ := by
  refine ⟨?_, by decide⟩
  rcases Option.isSome_iff_exists.mp hc with ⟨c, hcost⟩
  have hstep : update_pass_states sts [(name, qty)]
      = match lookupCost name with
        | none => sts
        | some _ =>
          match lookupState sts name with
          | none => sts ++ [(name, ⟨qty, qty, 0⟩)]
          | some st =>
            let delta := qty - st.total
            if 0 < delta then
              setEntry sts name (fun s => ⟨s.total + delta, s.crafted + delta, s.dropped⟩)
            else sts := rfl
  rw [hstep, hcost]
  simp only [hl]
  rw [if_pos (by omega)]
  rw [lookupState_setEntry_self sts name _ st hl]
  have : st.total + (qty - st.total) = qty := by omega
  rw [this]

/-- Witness for C4 at a concrete state: `{total: 5, crafted: 0,
dropped: 5}` observed at 8 becomes `{total: 8, crafted: 3, dropped: 5}`. -/
theorem observe_increase_policy_witness :
    lookupState
        (update_pass_states [(("Hellish Pass"), ⟨5, 0, 5⟩)] [(("Hellish Pass"), 8)])
        ("Hellish Pass")
        = some ⟨8, 0 + (8 - 5), 5⟩
      ∧ lookupState
            (update_stats (set_pass_all_dropped (update_stats app0 statsHP5) ("Hellish Pass"))
              statsHP8).pass_states ("Hellish Pass")
          = some ⟨8, 3, 5⟩ :=
  observe_increase_policy [(("Hellish Pass"), ⟨5, 0, 5⟩)] ("Hellish Pass") 8 ⟨5, 0, 5⟩
    (by decide) (by decide) (by decide)

/-- C9: every reconciliation call with an untracked pass name, and every
reclassification whose `dropped` count lies outside `[0, total]`, returns
the application state unchanged — pass states, both crafting deltas and
all derived fields included — and produces no error. -/
theorem reconciliation_noop (app : AppState) (name : String) (dropped : Int) :
    (lookupState app.pass_states name = none →
        reclassify app name dropped = app
          ∧ set_pass_all_crafted app name = app
          ∧ set_pass_all_dropped app name = app)
      ∧ (∀ st, lookupState app.pass_states name = some st →
          (dropped < 0 ∨ st.total < dropped) → reclassify app name dropped = app) := by
  constructor
  · intro h
    refine ⟨?_, ?_, ?_⟩ <;>
      simp [reclassify, set_pass_all_crafted, set_pass_all_dropped, h]
  · intro st h hod
    simp [reclassify, h, hod]

/-- Witness for C9: no-ops on the empty session for an unknown name, and
on a tracked pass for an out-of-range dropped count. -/
theorem reconciliation_noop_witness :
    reclassify app0 ("X") 1 = app0
      ∧ set_pass_all_crafted app0 ("X") = app0
      ∧ set_pass_all_dropped app0 ("X") = app0
      ∧ reclassify (update_stats app0 statsHP5) ("Hellish Pass") 9
          = update_stats app0 statsHP5 :=
  ⟨((reconciliation_noop app0 ("X") 1).1 (by decide)).1,
    ((reconciliation_noop app0 ("X") 1).1 (by decide)).2.1,
    ((reconciliation_noop app0 ("X") 1).1 (by decide)).2.2,
    (reconciliation_noop (update_stats app0 statsHP5) ("Hellish Pass") 9).2 ⟨5, 5, 0⟩
      (by decide) (by decide)⟩

/-- Counterexample to C7 as stated: on the first tick that observes a
pass type, `update_stats` computes the published net yang-per-hour from
the crafting delta of the *previous* recomputation (here still 0), not
from the delta implied by the pass states it just updated, so the rate is
not `(raw − current delta) / hours`. -/
theorem net_rate_stale_delta_cex :
    (update_stats app0 statsHP5).net_yang_per_hour
      ≠ ((statsHP5.total_yang : ℚ)
            - ((update_stats app0 statsHP5).crafting_yang_delta : ℚ)) / statsHP5.hours := by
  have h1 : (update_stats app0 statsHP5).net_yang_per_hour = 0 := by
    show (statsHP5.total_yang : ℚ) / _ - (app0.crafting_yang_delta : ℚ) / _ = 0
    norm_num [statsHP5, app0]
  have h2 : (update_stats app0 statsHP5).crafting_yang_delta = 10000000 := by decide
  rw [h1, h2]
  norm_num [statsHP5]

/-- C7 (amended): `update_stats` always recomputes `net_yang` from the
latest snapshot and the crafting delta implied by the pass states updated
by that same snapshot; the published `net_yang_per_hour`, however, is
computed *before* the delta recomputation, so it divides the raw total
minus the delta of the previous recomputation (previous tick or
reclassification) by the elapsed hours. -/
theorem net_rate_uses_previous_delta (app : AppState) (s : Stats) :
    (update_stats app s).net_yang_per_hour
        = ((s.total_yang : ℚ) - (app.crafting_yang_delta : ℚ))
            / (if 0 < s.hours then s.hours else 1 / 1000000)
      ∧ (update_stats app s).net_yang
          = s.total_yang - recalc_yang_delta (update_stats app s).pass_states := by
  constructor
  · show (s.total_yang : ℚ) / (if 0 < s.hours then s.hours else 1 / 1000000)
        - (app.crafting_yang_delta : ℚ) / (if 0 < s.hours then s.hours else 1 / 1000000)
        = _
    rw [div_sub_div_same]
  · rfl

lemma pyRound_intCast (n : Int) : pyRound ((n : Int) : ℚ) = n := by
  rw [pyRound, Int.floor_intCast]
  norm_num

/-- C10: `compute_stats_from_window` on the empty window returns `none`
(not all-zero stats); on a window of exactly one event the elapsed time
floors to one second and the returned rates are the raw quantities scaled
by 3600 per hour and 60 per minute. -/
theorem compute_empty_and_single (ev : WEvent) :
    compute_stats_from_window [] = none
      ∧ compute_stats_from_window [ev]
          = some
              { start_ts := ev.ts
                end_ts := ev.ts
                hours := 1 / 3600
                minutes := 1 / 60
                total_yang := if ev.item = "Yang" then ev.quantity else 0
                yang_per_hour := (if ev.item = "Yang" then ev.quantity else 0) * 3600
                yang_per_minute := (if ev.item = "Yang" then ev.quantity else 0) * 60
                items :=
                  if ev.item = "Yang" then []
                  else [(ev.item, ev.quantity, ev.quantity * 3600)] } := by
  refine ⟨rfl, ?_⟩
  have hdiv3600 : ∀ n : Int, (n : ℚ) / (((1 : Int) : ℚ) / 3600) = ((n * 3600 : Int) : ℚ) := by
    intro n
    push_cast
    ring
  have hdiv60 : ∀ n : Int, (n : ℚ) / (((1 : Int) : ℚ) / 60) = ((n * 60 : Int) : ℚ) := by
    intro n
    push_cast
    ring
  have helapsed : (if ev.ts - ev.ts < 1 then (1 : Int) else ev.ts - ev.ts) = 1 := by
    rw [if_pos]
    omega
  by_cases hy : ev.item = "Yang"
  · simp only [compute_stats_from_window, lastD, helapsed, hy, beq_self_eq_true, if_pos,
      List.filter_cons, List.filter_nil, List.foldl_cons, List.foldl_nil, if_true,
      List.map_nil, sortByQtyDesc, Option.some.injEq, Stats.mk.injEq, zero_add,
      hdiv3600, hdiv60, pyRound_intCast]
    norm_num
  · have hby : ¬ (ev.item == "Yang") = true := by
      simp only [beq_iff_eq]
      exact hy
    simp only [compute_stats_from_window, lastD, helapsed, hby, List.filter_cons,
      List.filter_nil, List.foldl_cons, List.foldl_nil, if_neg hby, addQty,
      List.map_cons, List.map_nil, sortByQtyDesc, insertByQty,
      Option.some.injEq, Stats.mk.injEq, if_neg hy, zero_add, hdiv3600, hdiv60,
      pyRound_intCast]
    norm_num [sortByQtyDesc, insertByQty, hdiv3600, hdiv60, pyRound_intCast]

lemma mem_insertByQty (x : String × Int × Int) :
    ∀ (l : List (String × Int × Int)) (a : String × Int × Int),
      a ∈ insertByQty x l ↔ a = x ∨ a ∈ l
  | [], a => by simp [insertByQty]
  | y :: ys, a => by
    rw [insertByQty]
    by_cases hy : y.2.1 < x.2.1
    · rw [if_pos hy]
      simp [List.mem_cons]
    · rw [if_neg hy]
      rw [List.mem_cons, List.mem_cons, mem_insertByQty x ys a]
      tauto

lemma mem_sort_go :
    ∀ (l acc : List (String × Int × Int)) (a : String × Int × Int),
      a ∈ l.foldl (fun acc x => insertByQty x acc) acc ↔ a ∈ acc ∨ a ∈ l
  | [], acc, a => by simp
  | x :: xs, acc, a => by
    rw [List.foldl_cons, mem_sort_go xs (insertByQty x acc) a, mem_insertByQty x acc a]
    simp only [List.mem_cons]
    tauto

lemma mem_sortByQtyDesc (l : List (String × Int × Int)) (a : String × Int × Int) :
    a ∈ sortByQtyDesc l ↔ a ∈ l := by
  rw [sortByQtyDesc, mem_sort_go l [] a]
  simp

/-- Counterexample to C8 as stated: in a three-hour window holding one
"Stone", the snapshot rate is already rounded (`round(1/3) = 0`), and the
rendered per-item net rate is composed from that rounded rate — it equals
`0`, not the exact `raw quantity / hours − delta / hours = 1/3`. -/
theorem per_item_net_rate_cex :
    compute_stats_from_window cexWindowC8 = some cexStatsC8
      ∧ render_net_per_hour (update_stats app0 cexStatsC8) ("Stone") = 0
      ∧ ((1 : ℚ) / cexStatsC8.hours
            - ((update_stats app0 cexStatsC8).crafting_item_delta ("Stone") : ℚ)
                / cexStatsC8.hours) ≠ 0 := by
  have hdelta : (update_stats app0 cexStatsC8).crafting_item_delta ("Stone") = 0 := by decide
  refine ⟨?_, ?_, ?_⟩
  · have hf0 : ⌊(1 : ℚ) / 3⌋ = 0 := by
      rw [Int.floor_eq_iff]
      constructor <;> norm_num
    have hf1 : ⌊(5 : ℚ) / 3⌋ = 1 := by
      rw [Int.floor_eq_iff]
      constructor <;> norm_num
    have hf2 : ⌊(1 : ℚ) / 36⌋ = 0 := by
      rw [Int.floor_eq_iff]
      constructor <;> norm_num
    simp [cexWindowC8, cexStatsC8, compute_stats_from_window, lastD, addQty, sortByQtyDesc,
      insertByQty, pyRound, Stats.mk.injEq]
    norm_num [Int.fract, hf0, hf1, hf2]
  · have hbase : (update_stats app0 cexStatsC8).base_item_rates ("Stone") = 0 := by decide
    have hd : (update_stats app0 cexStatsC8).data_hours = 3 := by
      show (if (0 : ℚ) < cexStatsC8.hours then cexStatsC8.hours else 0) = 3
      norm_num [cexStatsC8]
    simp only [render_net_per_hour, hdelta, hbase, hd]
    norm_num
  · rw [hdelta]
    norm_num [cexStatsC8]

/-- C8 (amended): the per-item rate published in a snapshot is already
rounded to the nearest integer when the snapshot is built
(`per_hour = round(qty / hours)`), and the rendered per-item net rate is
composed from that rounded snapshot rate: it equals
`base_item_rates[name] − crafting_item_delta[name] / hours` (falling back
to the rounded base rate when no time has elapsed), not the exact
fractional raw rate minus the amortized delta. -/
theorem per_item_net_rate_from_rounded (app : AppState) (s : Stats) (w : List WEvent)
    (name : String) :
    (compute_stats_from_window w).map (fun st => st.items.map (fun t => t.2.2))
        = (compute_stats_from_window w).map
            (fun st => st.items.map (fun t => pyRound ((t.2.1 : ℚ) / st.hours)))
      ∧ render_net_per_hour (update_stats app s) name
          = (if 0 < s.hours
              then ((update_stats app s).base_item_rates name : ℚ)
                  - ((update_stats app s).crafting_item_delta name : ℚ) / s.hours
              else ((update_stats app s).base_item_rates name : ℚ)) := by
  constructor
  · rcases w with _ | ⟨e, es⟩
    · rfl
    · simp only [compute_stats_from_window, Option.map_some]
      refine congrArg some (List.map_congr_left ?_)
      intro t ht
      rw [mem_sortByQtyDesc] at ht
      rcases List.mem_map.mp ht with ⟨p, hp, rfl⟩
      rfl
  · by_cases hh : 0 < s.hours
    · have hd : (update_stats app s).data_hours = s.hours := by
        show (if 0 < s.hours then s.hours else 0) = s.hours
        rw [if_pos hh]
      rw [if_pos hh]
      simp only [render_net_per_hour, hd]
      rw [if_pos hh]
    · have hd : (update_stats app s).data_hours = 0 := by
        show (if 0 < s.hours then s.hours else 0) = 0
        rw [if_neg hh]
      rw [if_neg hh]
      simp only [render_net_per_hour, hd]
      rw [if_neg (lt_irrefl 0)]

lemma digitRun_append (q : List Char) (c : Char) (rest : List Char)
    (hq : ∀ x ∈ q, isDig x = true) (hc : isDig c = false) :
    digitRun (q ++ c :: rest) = (q, c :: rest) := by
  induction q with
  | nil => simp [digitRun, hc]
  | cons d ds ih =>
    have hd : isDig d = true := hq d (List.mem_cons_self d ds)
    have hds : ∀ x ∈ ds, isDig x = true := fun x hx => hq x (List.mem_cons_of_mem d hx)
    simp only [List.cons_append, digitRun, List.append_eq, hd, ih hds, if_true]

lemma grabItemAux_append :
    ∀ (it post : List Char), '.' ∉ it → '\n' ∉ it →
      grabItemAux (it ++ '.' :: post) = some (it, post)
  | [], post, _, _ => by simp [grabItemAux]
  | c :: cs, post, hdot, hnl => by
    have hc1 : ¬ c = '.' := by
      intro h
      subst h
      exact hdot (List.mem_cons_self _ _)
    have hc2 : ¬ c = '\n' := by
      intro h
      subst h
      exact hnl (List.mem_cons_self _ _)
    have ih := grabItemAux_append cs post (fun h => hdot (List.mem_cons_of_mem c h))
      (fun h => hnl (List.mem_cons_of_mem c h))
    simp only [List.cons_append, grabItemAux, List.append_eq, if_neg hc1, if_neg hc2, ih]

lemma grabItem_append :
    ∀ (it post : List Char), it ≠ [] → '.' ∉ it → '\n' ∉ it →
      grabItem (it ++ '.' :: post) = some (it, post)
  | [], _, h, _, _ => absurd rfl h
  | c :: cs, post, _, hdot, hnl => by
    have hc2 : ¬ c = '\n' := by
      intro h
      subst h
      exact hnl (List.mem_cons_self _ _)
    have ih := grabItemAux_append cs post (fun h => hdot (List.mem_cons_of_mem c h))
      (fun h => hnl (List.mem_cons_of_mem c h))
    simp only [List.cons_append, grabItem, List.append_eq, if_neg hc2, ih]

lemma matchHeader_HEADER (tail : List Char) :
    matchHeader (HEADER ++ tail) = some (1, 1, 25, 0, 0, 0, tail) := rfl

lemma matchAt_built_line (q it post : List Char) (hq0 : q ≠ [])
    (hq : ∀ x ∈ q, isDig x = true) (hit0 : it ≠ []) (hdot : '.' ∉ it) (hnl : '\n' ∉ it) :
    matchAt (HEADER ++ (q ++ ' ' :: (it ++ '.' :: post)))
      = some ⟨1, 1, 25, 0, 0, 0, q, it⟩ := by
  have hrun : digitRun (q ++ ' ' :: (it ++ '.' :: post))
      = (q, ' ' :: (it ++ '.' :: post)) :=
    digitRun_append q ' ' (it ++ '.' :: post) hq (by decide)
  have hgrab := grabItem_append it post hit0 hdot hnl
  rcases q with _ | ⟨qh, qt⟩
  · exact absurd rfl hq0
  · simp only [matchAt, matchHeader_HEADER, Option.some_bind, hrun, expectLit, if_pos rfl,
      if_true, List.append_eq, Option.some_bind, hgrab]
    rfl

lemma searchMatch_of_matchAt_some (cs : List Char) (g : MatchG) (hne : cs ≠ [])
    (h : matchAt cs = some g) : searchMatch cs = some g := by
  rcases cs with _ | ⟨c, cs⟩
  · exact absurd rfl hne
  · rw [searchMatch, h]

/-- Counterexample to C5 as stated: `parse_log_line` uses `re.search`, so
a line with junk before the matched part and after the first period still
yields an event, although it is not of the exact full-line shape the spec
describes. -/
theorem parse_not_exact_shape_cex :
    parse_log_line cexLineShape
        = Except.ok (some ⟨⟨2025, 1, 1, 0, 0, 0⟩, 5, ("Apple")⟩)
      ∧ spec_exact_shape cexLineShape = false := by decide

/-- C5 (amended): a line with no occurrence of the pattern anywhere
yields `none`; and any line *containing* the bracketed-timestamp pattern
(here with the valid timestamp `01/01/25 00:00:00`) followed by a digit
quantity, a space, and an item name yields the event whose item name is
everything between the quantity and the *first* following period, taken
verbatim — any trailing text after that period is ignored. -/
theorem parse_line_search_semantics :
    (∀ line : String, searchMatch line.data = none → parse_log_line line = Except.ok none)
      ∧ (∀ q it post : List Char, q ≠ [] → (∀ x ∈ q, isDig x = true) → it ≠ [] →
          '.' ∉ it → '\n' ∉ it →
          parse_log_line (String.mk (HEADER ++ (q ++ ' ' :: (it ++ '.' :: post))))
            = Except.ok (some ⟨⟨2025, 1, 1, 0, 0, 0⟩, natOfDigits q, String.mk it⟩)) := by
  constructor
  · intro line h
    simp [parse_log_line, h]
  · intro q it post hq0 hq hit0 hdot hnl
    have hma := matchAt_built_line q it post hq0 hq hit0 hdot hnl
    have hne : HEADER ++ (q ++ ' ' :: (it ++ '.' :: post)) ≠ [] :=
      List.append_ne_nil_of_left_ne_nil (by decide) _
    have hs := searchMatch_of_matchAt_some _ _ hne hma
    have hdata : (String.mk (HEADER ++ (q ++ ' ' :: (it ++ '.' :: post)))).data
        = HEADER ++ (q ++ ' ' :: (it ++ '.' :: post)) := rfl
    have hdt : parse_datetime_from_log ⟨1, 1, 25, 0, 0, 0, q, it⟩
        = some ⟨2025, 1, 1, 0, 0, 0⟩ := rfl
    simp [parse_log_line, hdata, hs, hdt]

/-- Witness for C5: a plain chat line parses to `none`; a well-formed
receive line (with trailing text absent) parses to the event `5 Apple`. -/
theorem parse_line_search_semantics_witness :
    parse_log_line ("hello world") = Except.ok none
      ∧ parse_log_line
            (String.mk (HEADER ++ (['5'] ++ ' ' :: (['A', 'p', 'p', 'l', 'e'] ++ '.' :: []))))
          = Except.ok
              (some ⟨⟨2025, 1, 1, 0, 0, 0⟩, natOfDigits ['5'],
                String.mk ['A', 'p', 'p', 'l', 'e']⟩) :=
  ⟨parse_line_search_semantics.1 ("hello world") (by decide),
    parse_line_search_semantics.2 ['5'] ['A', 'p', 'p', 'l', 'e'] [] (by decide) (by decide)
      (by decide) (by decide) (by decide)⟩

/-- Counterexample to C6 as stated: a line whose digits pass the regex
shape but do not form a valid calendar date makes `parse_log_line` raise
`ValueError` (which kills the reader thread), instead of being silently
skipped. -/
theorem parse_bad_date_error_cex :
    parse_log_line cexLineBadDate = Except.error ("ValueError") := by decide

/-- C6 (amended): `parse_log_line` returns an event or `none` — never an
error — for every line except one whose leftmost regex match carries
timestamp digits that are not a valid calendar date / time of day; for
those it raises `ValueError` rather than silently skipping the line. -/
theorem parse_totality_modulo_bad_dates (line : String) :
    (searchMatch line.data = none → parse_log_line line = Except.ok none)
      ∧ (∀ g, searchMatch line.data = some g → valid_dt g →
          parse_log_line line
            = Except.ok (some ⟨⟨yearFrom2 g.year2, g.month, g.day, g.hour, g.minute,
                g.second⟩, natOfDigits g.qtyDigits, String.mk g.item⟩))
      ∧ (∀ g, searchMatch line.data = some g → ¬ valid_dt g →
          parse_log_line line = Except.error ("ValueError")) := by
  refine ⟨fun h => by simp [parse_log_line, h], fun g hg hv => ?_, fun g hg hv => ?_⟩
  · have hv' : 1 ≤ g.month ∧ g.month ≤ 12 ∧ 1 ≤ g.day
        ∧ g.day ≤ daysInMonth (yearFrom2 g.year2) g.month
        ∧ g.hour ≤ 23 ∧ g.minute ≤ 59 ∧ g.second ≤ 59 := hv
    have hdt : parse_datetime_from_log g
        = some ⟨yearFrom2 g.year2, g.month, g.day, g.hour, g.minute, g.second⟩ := by
      simp only [parse_datetime_from_log]
      rw [if_pos hv']
    simp [parse_log_line, hg, hdt]
  · have hv' : ¬ (1 ≤ g.month ∧ g.month ≤ 12 ∧ 1 ≤ g.day
        ∧ g.day ≤ daysInMonth (yearFrom2 g.year2) g.month
        ∧ g.hour ≤ 23 ∧ g.minute ≤ 59 ∧ g.second ≤ 59) := hv
    have hdt : parse_datetime_from_log g = none := by
      simp only [parse_datetime_from_log]
      rw [if_neg hv']
    simp [parse_log_line, hg, hdt]

/-- Witness for C6: a chat line is skipped as `none`, a valid receive
line yields its event, and the bad-date line yields the error. -/
theorem parse_totality_modulo_bad_dates_witness :
    parse_log_line ("hello world") = Except.ok none
      ∧ parse_log_line ("[24/11/25] [00:29:29]: You receive 120 Shard.")
          = Except.ok
              (some ⟨⟨2025, 11, 24, 0, 29, 29⟩, natOfDigits ['1', '2', '0'],
                String.mk ['S', 'h', 'a', 'r', 'd']⟩)
      ∧ parse_log_line cexLineBadDate = Except.error ("ValueError") :=
  ⟨(parse_totality_modulo_bad_dates ("hello world")).1 (by decide),
    (parse_totality_modulo_bad_dates ("[24/11/25] [00:29:29]: You receive 120 Shard.")).2.1
      ⟨24, 11, 25, 0, 29, 29, ['1', '2', '0'], ['S', 'h', 'a', 'r', 'd']⟩ (by decide)
      (by decide),
    (parse_totality_modulo_bad_dates cexLineBadDate).2.2
      ⟨99, 99, 99, 0, 0, 0, ['5'], ['A', 'p', 'p', 'l', 'e']⟩ (by decide) (by decide)⟩
